import Mathlib

/-!
Shallow embedding of the streak-continuity engine of the habit tracker
(`src/app/page.tsx`): local-date identifier formatting, week-start and
week-identifier computation, week date ranges, and the current-streak
count with its one-period grace window.

Instants are modelled as `Int` minutes since the Unix epoch (UTC).  The
runtime's local timezone is a fixed offset `tz` in minutes: the local
civil time of instant `t` is `t + tz` minutes.  JavaScript strings are
modelled as `List Char`, and a habit's completion set as a
`Finset (List Char)` (the source keeps a `Set<string>`).
-/

abbrev JSString := List Char

/-! ### Proleptic-Gregorian calendar arithmetic (the model of JS `Date`) -/

/-- Days since 1970-01-01 of a proleptic-Gregorian civil date
(the standard floor-division days-from-civil algorithm, which is what a
JavaScript `Date` implements for local calendar arithmetic). -/
def daysFromCivil (y m d : Int) : Int :=
  let y2 := if m ≤ 2 then y - 1 else y
  let era := y2 / 400
  let yoe := y2 - era * 400
  let mp := m + (if 2 < m then -3 else 9)
  let doy := (153 * mp + 2) / 5 + d - 1
  let doe := yoe * 365 + yoe / 4 - yoe / 100 + doy
  era * 146097 + doe - 719468

/-- Civil date `(year, month, day)` of a days-since-epoch count
(inverse of `daysFromCivil`): the day count is decomposed hierarchically
into a 400-year era, a century within the era, a quadrennium within the
century and a (March-based) year within the quadrennium, with the short
century/quadrennium/year always last. -/
def civilFromDays (z0 : Int) : Int × Int × Int :=
  let z := z0 + 719468
  let era := z / 146097
  let doe := z - era * 146097
  let c := if 109572 ≤ doe then 3 else doe / 36524
  let doc := doe - 36524 * c
  let q := doc / 1461
  let r := doc - 1461 * q
  let y := if 1095 ≤ r then 3 else r / 365
  let doy := r - 365 * y
  let yoe := 100 * c + 4 * q + y
  let mp := (5 * doy + 2) / 153
  let d := doy - (153 * mp + 2) / 5 + 1
  let m := mp + (if mp < 10 then 3 else -9)
  (if m ≤ 2 then yoe + era * 400 + 1 else yoe + era * 400, m, d)

/-- Local civil day number of instant `t` under timezone offset `tz`. -/
def localDay (tz t : Int) : Int := (t + tz) / 1440

/-- Model of `date.getDay()`: day of week (0 = Sunday … 6 = Saturday) of
the local calendar date of `t` (1970-01-01 was a Thursday = 4). -/
def getDay (tz t : Int) : Int := (localDay tz t + 4) % 7

/-- Model of `d.setHours(0, 0, 0, 0)`: truncate the instant to local
midnight of its local calendar day. -/
def setHoursZero (tz t : Int) : Int := localDay tz t * 1440 - tz

/-- Model of `d.setDate(d.getDate() + k)`: take the local civil date of
`t`, add `k` to the day-of-month component (JS normalizes out-of-range
day-of-month values), keep the local time of day. -/
def setDateAdd (tz t k : Int) : Int :=
  let ld := localDay tz t
  let c := civilFromDays ld
  daysFromCivil c.1 c.2.1 (c.2.2 + k) * 1440 + (t + tz - ld * 1440) - tz

/-! ### Decimal formatting and parsing of identifier strings -/

/-- The decimal digit character for `n < 10`. -/
def digitChar (n : Nat) : Char := Char.ofNat (48 + n)

/-- Decimal digit characters of `n`, most significant first, for `n ≤ fuel`
(structural fuel so that the kernel can evaluate it). -/
def natDecAux : Nat → Nat → List Char
  | 0, _ => []
  | fuel + 1, n => if n = 0 then [] else natDecAux fuel (n / 10) ++ [digitChar (n % 10)]

/-- Decimal representation of a natural number, as JS `String(n)`. -/
def natDecChars (n : Nat) : List Char :=
  if n = 0 then ['0'] else natDecAux n n

/-- Decimal representation of an integer, as JS `String(i)` and the template literal interpolation. -/
def intDecChars (i : Int) : List Char :=
  if i < 0 then '-' :: natDecChars (-i).toNat else natDecChars i.toNat

/-- Model of `String(n).padStart(2, "0")` for the month/day components. -/
def pad2 (i : Int) : List Char :=
  if i < 10 then '0' :: natDecChars i.toNat else natDecChars i.toNat

/-- Assembles the year-month-day template string of `getLocalDateString`. -/
def formatCivil (c : Int × Int × Int) : JSString :=
  intDecChars c.1 ++ '-' :: (pad2 c.2.1 ++ '-' :: pad2 c.2.2)

/-- Model of `s.split("-")` on a JS string. -/
def splitOnDash : List Char → List (List Char)
  | [] => [[]]
  | c :: cs =>
    if c = '-' then [] :: splitOnDash cs
    else
      match splitOnDash cs with
      | [] => [[c]]
      | g :: gs => (c :: g) :: gs

/-- Decimal value of a digit string (accumulator form); this is what JS
`Number(s)` yields on the all-digit strings the engine parses. -/
def charsToNat : Nat → List Char → Nat
  | acc, [] => acc
  | acc, c :: cs => charsToNat (10 * acc + (c.toNat - 48)) cs

/-- Model of `s.split("-").map(Number)` destructured into
`[year, month, day]`, on the engine-generated `YYYY-MM-DD` identifiers. -/
def parse3 (s : JSString) : Int × Int × Int :=
  match splitOnDash s with
  | [a, b, c] => ((charsToNat 0 a : Nat), ((charsToNat 0 b : Nat), (charsToNat 0 c : Nat)))
  | _ => (0, 0, 0)

/-- Model of `new Date(year, monthIndex, day)` called as
`new Date(y, m - 1, d)`: local midnight of the civil date `(y, m, d)`,
with the JS quirk that a year in `0..99` means `1900 + year`. -/
def jsDateYMD (tz y m d : Int) : Int :=
  (if 0 ≤ y ∧ y ≤ 99 then daysFromCivil (y + 1900) m d else daysFromCivil y m d) * 1440 - tz

/-- Model of `new Date(s)` on an ISO `YYYY-MM-DD` string: **UTC**
midnight of the parsed calendar date (the timezone offset is *not*
applied — this is the ES-spec behaviour for date-only ISO strings). -/
def parseUTCDate (s : JSString) : Int :=
  let p := parse3 s
  daysFromCivil p.1 p.2.1 p.2.2 * 1440

/-! ### The streak engine (`src/app/page.tsx`, lines 793–904) -/

/-- Source `getLocalDateString(date)`: the `YYYY-MM-DD` string of the *local*
calendar date of the instant, from `getFullYear`/`getMonth`/`getDate`. -/
def getLocalDateString (tz t : Int) : JSString :=
  formatCivil (civilFromDays (localDay tz t))

/-- Source `getWeekStart(date)`: Monday (local midnight) of the local calendar
week containing the instant, via
`diff = day === 0 ? -6 : 1 - day; d.setDate(d.getDate() + diff); d.setHours(0,0,0,0)`. -/
def getWeekStart (tz t : Int) : Int :=
  let day := getDay tz t
  let diff := if day = 0 then -6 else 1 - day
  setHoursZero tz (setDateAdd tz t diff)

/-- Source `getWeekIdentifier(date)`: `YYYY-MM-DD` of the Monday of the week. -/
def getWeekIdentifier (tz t : Int) : JSString :=
  getLocalDateString tz (getWeekStart tz t)

/-- Source `getWeekDates(weekIdentifier)`: parse the identifier with
`split("-").map(Number)` and `new Date(year, month - 1, day)` (a *local*
parse), return that date and the date 6 days later. -/
def getWeekDates (tz : Int) (w : JSString) : Int × Int :=
  let p := parse3 w
  let start := jsDateYMD tz p.1 p.2.1 p.2.2
  (start, setDateAdd tz start 6)

/-- The daily `while (true)` loop of `getStreakCount`: count consecutive
local days whose identifiers are in the completion set, walking backward
one day (`checkDate.setDate(checkDate.getDate() - 1)`) at a time.  The
loop is embedded with explicit fuel; `getStreakCount` runs it with fuel
`card + 1`, which the termination theorem below proves sufficient. -/
def walkDaily (tz : Int) (s : Finset JSString) : Nat → Int → Nat
  | 0, _ => 0
  | fuel + 1, t =>
    if getLocalDateString tz t ∈ s then walkDaily tz s fuel (setDateAdd tz t (-1)) + 1 else 0

/-- The weekly `while (true)` loop of `getStreakCount`: count consecutive
weeks whose identifiers are in the completion set, recomputing
`getWeekIdentifier(checkDate)` each step and walking backward 7 days
(`checkDate.setDate(checkDate.getDate() - 7)`) at a time. -/
def walkWeekly (tz : Int) (s : Finset JSString) : Nat → Int → Nat
  | 0, _ => 0
  | fuel + 1, t =>
    if getWeekIdentifier tz t ∈ s then walkWeekly tz s fuel (setDateAdd tz t (-7)) + 1 else 0

/-- The string literal `"weekly"`. -/
def weeklyStr : JSString := ['w', 'e', 'e', 'k', 'l', 'y']

/-- The string literal `"daily"`. -/
def dailyStr : JSString := ['d', 'a', 'i', 'l', 'y']

/-- The malformed completion entry `"not-a-date"` from the spec's test. -/
def notADate : JSString := ['n', 'o', 't', '-', 'a', '-', 'd', 'a', 't', 'e']

/-- Source `getStreakCount(completedDates, frequency)` with the runtime clock
`now` and timezone `tz` made explicit.  Mirrors the source exactly: an
empty set yields 0; `frequency === "weekly"` selects the weekly branch
(anything else falls into the daily branch); the weekly branch parses
the chosen week identifier with `new Date(checkWeek)` (a UTC parse);
the daily branch truncates `now` to local midnight and applies the
one-day grace window. -/
def getStreakCount (tz : Int) (completedDates : Finset JSString)
    (frequency : JSString) (now : Int) : Nat :=
  if completedDates.card = 0 then 0
  else if frequency = weeklyStr then
    let currentWeek := getWeekIdentifier tz now
    let lastWeek := getWeekIdentifier tz (setDateAdd tz now (-7))
    if currentWeek ∉ completedDates ∧ lastWeek ∉ completedDates then 0
    else
      let checkWeek := if currentWeek ∈ completedDates then currentWeek else lastWeek
      walkWeekly tz completedDates (completedDates.card + 1) (parseUTCDate checkWeek)
  else
    let today := setHoursZero tz now
    let yesterday := setDateAdd tz today (-1)
    if getLocalDateString tz today ∈ completedDates then
      walkDaily tz completedDates (completedDates.card + 1) today
    else if getLocalDateString tz yesterday ∈ completedDates then
      walkDaily tz completedDates (completedDates.card + 1) yesterday
    else 0

/-! ### Calendar lemmas -/

theorem daysFromCivil_civilFromDays (z : Int) :
    daysFromCivil (civilFromDays z).1 (civilFromDays z).2.1 (civilFromDays z).2.2 = z := by
  unfold daysFromCivil civilFromDays
  dsimp only
  set z1 := z + 719468 with hz1
  set era := z1 / 146097 with hera
  set doe := z1 - era * 146097 with hdoe
  have hdoe2 : 0 ≤ doe ∧ doe < 146097 := by omega
  set c := if 109572 ≤ doe then 3 else doe / 36524 with hc
  have hc2 : 0 ≤ c ∧ c ≤ 3 := by rw [hc]; split <;> omega
  set doc := doe - 36524 * c with hdoc
  have hdoc2 : 0 ≤ doc ∧ (doc ≤ 36523 ∨ (c = 3 ∧ doc ≤ 36524)) := by
    rw [hdoc, hc]; split <;> omega
  set q := doc / 1461 with hq
  have hq2 : 0 ≤ q ∧ q ≤ 24 := by omega
  set r := doc - 1461 * q with hr
  have hr2 : 0 ≤ r ∧ r ≤ 1460 := by omega
  set y := if 1095 ≤ r then 3 else r / 365 with hy
  have hy2 : 0 ≤ y ∧ y ≤ 3 := by rw [hy]; split <;> omega
  set doy := r - 365 * y with hdoy
  have hdoy2 : 0 ≤ doy ∧ doy ≤ 365 := by rw [hdoy, hy]; split <;> omega
  set mp := (5 * doy + 2) / 153 with hmp
  have hmp2 : 0 ≤ mp ∧ mp ≤ 11 := by omega
  have hA : (100 * c + 4 * q + y + era * 400) / 400 = era := by omega
  have hA1 : (100 * c + 4 * q + y + era * 400 + 1 - 1) / 400 = era := by omega
  have hB : (100 * c + 4 * q + y + era * 400 - (100 * c + 4 * q + y + era * 400) / 400 * 400) / 4
      = 25 * c + q := by omega
  have hB1 : (100 * c + 4 * q + y + era * 400 + 1 - 1 -
      (100 * c + 4 * q + y + era * 400 + 1 - 1) / 400 * 400) / 4 = 25 * c + q := by omega
  have hC : (100 * c + 4 * q + y + era * 400 - (100 * c + 4 * q + y + era * 400) / 400 * 400) / 100
      = c := by omega
  have hC1 : (100 * c + 4 * q + y + era * 400 + 1 - 1 -
      (100 * c + 4 * q + y + era * 400 + 1 - 1) / 400 * 400) / 100 = c := by omega
  split_ifs <;> omega

theorem civilFromDays_injective : Function.Injective civilFromDays := by
  intro a b h
  have ha := daysFromCivil_civilFromDays a
  have hb := daysFromCivil_civilFromDays b
  rw [h] at ha
  omega

/-- The month of a decoded civil date lies in `1..12` and the day in `1..31`. -/
theorem civilFromDays_bounds (z : Int) :
    1 ≤ (civilFromDays z).2.1 ∧ (civilFromDays z).2.1 ≤ 12 ∧
    1 ≤ (civilFromDays z).2.2 ∧ (civilFromDays z).2.2 ≤ 31 := by
  unfold civilFromDays
  dsimp only
  set z1 := z + 719468 with hz1
  set era := z1 / 146097 with hera
  set doe := z1 - era * 146097 with hdoe
  have hdoe2 : 0 ≤ doe ∧ doe < 146097 := by omega
  set c := if 109572 ≤ doe then 3 else doe / 36524 with hc
  have hc2 : 0 ≤ c ∧ c ≤ 3 := by rw [hc]; split <;> omega
  set doc := doe - 36524 * c with hdoc
  set q := doc / 1461 with hq
  set r := doc - 1461 * q with hr
  set y := if 1095 ≤ r then 3 else r / 365 with hy
  set doy := r - 365 * y with hdoy
  have hdoy2 : 0 ≤ doy ∧ doy ≤ 365 := by rw [hdoy, hy]; split <;> omega
  set mp := (5 * doy + 2) / 153 with hmp
  have hmp2 : 0 ≤ mp ∧ mp ≤ 11 := by omega
  split_ifs <;> omega

/-- Affinity: `daysFromCivil` is affine in the day-of-month argument; this is what
makes `setDate` arithmetic (with out-of-range day values normalized by
JS) a plain day shift. -/
theorem daysFromCivil_add (y m d k : Int) :
    daysFromCivil y m (d + k) = daysFromCivil y m d + k := by
  unfold daysFromCivil
  dsimp only
  split_ifs <;> ring

theorem localDay_shift (tz t k : Int) : localDay tz (t + k * 1440) = localDay tz t + k := by
  unfold localDay
  omega

theorem setDateAdd_eq (tz t k : Int) : setDateAdd tz t k = t + k * 1440 := by
  unfold setDateAdd
  dsimp only
  rw [daysFromCivil_add, daysFromCivil_civilFromDays]
  ring

theorem setHoursZero_localDay (tz t : Int) : localDay tz (setHoursZero tz t) = localDay tz t := by
  unfold setHoursZero localDay
  omega

/-! ### Formatting and parsing lemmas -/

theorem charsToNat_nil (acc : Nat) : charsToNat acc [] = acc := rfl

theorem charsToNat_cons (acc : Nat) (c : Char) (cs : List Char) :
    charsToNat acc (c :: cs) = charsToNat (10 * acc + (c.toNat - 48)) cs := rfl

theorem natDecAux_zero (fuel : Nat) : natDecAux fuel 0 = [] := by
  cases fuel <;> rfl

theorem natDecAux_succ (fuel n : Nat) (h : n ≠ 0) :
    natDecAux (fuel + 1) n = natDecAux fuel (n / 10) ++ [digitChar (n % 10)] := by
  simp [natDecAux, h]

theorem charsToNat_append (acc : Nat) (xs ys : List Char) :
    charsToNat acc (xs ++ ys) = charsToNat (charsToNat acc xs) ys := by
  induction xs generalizing acc with
  | nil => rfl
  | cons c cs ih =>
    show charsToNat (10 * acc + (c.toNat - 48)) (cs ++ ys)
      = charsToNat (charsToNat (10 * acc + (c.toNat - 48)) cs) ys
    exact ih _

theorem digitChar_toNat (n : Nat) (h : n < 10) : (digitChar n).toNat = 48 + n := by
  interval_cases n <;> decide

theorem charsToNat_natDecAux (fuel : Nat) :
    ∀ n acc : Nat, n ≤ fuel →
      charsToNat acc (natDecAux fuel n) = acc * 10 ^ (natDecAux fuel n).length + n := by
  induction fuel with
  | zero =>
    intro n acc h
    interval_cases n
    rw [natDecAux_zero, charsToNat_nil]
    simp
  | succ f ih =>
    intro n acc h
    by_cases hn : n = 0
    · subst hn
      rw [natDecAux_zero, charsToNat_nil]
      simp
    · have hf : n / 10 ≤ f := by omega
      rw [natDecAux_succ f n hn]
      rw [charsToNat_append, ih (n / 10) acc hf]
      rw [charsToNat_cons, charsToNat_nil]
      have hd := digitChar_toNat (n % 10) (by omega)
      rw [hd]
      simp only [List.length_append, List.length_cons, List.length_nil]
      have hp : (10 : Nat) ^ ((natDecAux f (n / 10)).length + (0 + 1))
          = 10 ^ (natDecAux f (n / 10)).length * 10 := by
        rw [pow_succ]
      rw [hp]
      have hv : acc * (10 ^ (natDecAux f (n / 10)).length * 10)
          = acc * 10 ^ (natDecAux f (n / 10)).length * 10 := by ring
      rw [hv]
      omega

theorem charsToNat_natDecChars (n : Nat) : charsToNat 0 (natDecChars n) = n := by
  unfold natDecChars
  split
  · rename_i h
    subst h
    decide
  · have := charsToNat_natDecAux n n 0 le_rfl
    simpa using this

theorem mem_natDecAux_digit (fuel : Nat) :
    ∀ n : Nat, ∀ c ∈ natDecAux fuel n, 48 ≤ c.toNat ∧ c.toNat ≤ 57 := by
  induction fuel with
  | zero => intro n c hc; simp [natDecAux] at hc
  | succ f ih =>
    intro n c hc
    by_cases hn : n = 0
    · rw [hn, natDecAux_zero] at hc
      simp at hc
    · rw [natDecAux_succ f n hn] at hc
      rcases List.mem_append.mp hc with h | h
      · exact ih _ c h
      · have he : c = digitChar (n % 10) := by simpa using h
        subst he
        have := digitChar_toNat (n % 10) (by omega)
        omega

theorem mem_natDecChars_digit (n : Nat) : ∀ c ∈ natDecChars n, 48 ≤ c.toNat ∧ c.toNat ≤ 57 := by
  intro c hc
  unfold natDecChars at hc
  split at hc
  · simp at hc
    subst hc
    decide
  · exact mem_natDecAux_digit n n c hc

theorem dash_not_mem_natDecChars (n : Nat) : '-' ∉ natDecChars n := by
  intro h
  have := mem_natDecChars_digit n '-' h
  revert this
  decide

theorem natDecChars_injective {a b : Nat} (h : natDecChars a = natDecChars b) : a = b := by
  have ha := charsToNat_natDecChars a
  rw [h, charsToNat_natDecChars] at ha
  omega

theorem charsToNat_pad2 (i : Int) (h0 : 0 ≤ i) (h : i ≤ 99) :
    charsToNat 0 (pad2 i) = i.toNat := by
  unfold pad2
  split
  · show charsToNat (10 * 0 + ('0'.toNat - 48)) (natDecChars i.toNat) = i.toNat
    have h48 : 10 * 0 + ('0'.toNat - 48) = 0 := by decide
    rw [h48, charsToNat_natDecChars]
  · exact charsToNat_natDecChars _

theorem pad2_inj {a b : Int} (ha0 : 0 ≤ a) (ha : a ≤ 99) (hb0 : 0 ≤ b) (hb : b ≤ 99)
    (h : pad2 a = pad2 b) : a = b := by
  have hv := charsToNat_pad2 a ha0 ha
  rw [h, charsToNat_pad2 b hb0 hb] at hv
  omega

theorem dash_not_mem_pad2 (i : Int) : '-' ∉ pad2 i := by
  unfold pad2
  split
  · intro h
    rcases List.mem_cons.mp h with h1 | h1
    · exact absurd h1 (by decide)
    · exact dash_not_mem_natDecChars _ h1
  · exact dash_not_mem_natDecChars _

theorem charsToNat_intDecChars (y : Int) (hy : 0 ≤ y) :
    charsToNat 0 (intDecChars y) = y.toNat := by
  unfold intDecChars
  rw [if_neg (by omega)]
  exact charsToNat_natDecChars _

theorem dash_not_mem_intDecChars (y : Int) (hy : 0 ≤ y) : '-' ∉ intDecChars y := by
  unfold intDecChars
  rw [if_neg (by omega)]
  exact dash_not_mem_natDecChars _

theorem intDecChars_inj {a b : Int} (h : intDecChars a = intDecChars b) : a = b := by
  unfold intDecChars at h
  split_ifs at h with h1 h2 h2
  · have hc := List.cons.injEq '-' (natDecChars (-a).toNat) '-' (natDecChars (-b).toNat) ▸ h
    have := natDecChars_injective (List.cons.inj h).2
    have hna : ((-a).toNat : Int) = -a := Int.toNat_of_nonneg (by omega)
    have hnb : ((-b).toNat : Int) = -b := Int.toNat_of_nonneg (by omega)
    omega
  · exfalso
    have : '-' ∈ natDecChars b.toNat := h ▸ List.mem_cons_self '-' _
    exact dash_not_mem_natDecChars _ this
  · exfalso
    have : '-' ∈ natDecChars a.toNat := h.symm ▸ List.mem_cons_self '-' _
    exact dash_not_mem_natDecChars _ this
  · have := natDecChars_injective h
    omega

theorem natDecAux_length (fuel : Nat) :
    ∀ n k : Nat, n ≤ fuel → 10 ^ k ≤ n → n < 10 ^ (k + 1) →
      (natDecAux fuel n).length = k + 1 := by
  induction fuel with
  | zero =>
    intro n k h hk1 hk2
    have := Nat.pos_pow_of_pos k (show 0 < 10 by norm_num)
    omega
  | succ f ih =>
    intro n k h hk1 hk2
    have hpos := Nat.pos_pow_of_pos k (show 0 < 10 by norm_num)
    have hn : n ≠ 0 := by omega
    rw [natDecAux_succ f n hn, List.length_append]
    cases k with
    | zero =>
      have h9 : n < 10 := by simpa using hk2
      have h10 : n / 10 = 0 := by omega
      rw [h10, natDecAux_zero]
      rfl
    | succ k2 =>
      have h1 : (10 : Nat) ^ (k2 + 1) = 10 ^ k2 * 10 := pow_succ 10 k2
      have h2 : (10 : Nat) ^ (k2 + 2) = 10 ^ (k2 + 1) * 10 := pow_succ 10 (k2 + 1)
      have hd1 : 10 ^ k2 ≤ n / 10 := by omega
      have hd2 : n / 10 < 10 ^ (k2 + 1) := by omega
      have hf : n / 10 ≤ f := by omega
      rw [ih (n / 10) k2 hf hd1 hd2]
      simp

theorem natDecChars_length (n k : Nat) (h1 : 10 ^ k ≤ n) (h2 : n < 10 ^ (k + 1)) :
    (natDecChars n).length = k + 1 := by
  have hpos := Nat.pos_pow_of_pos k (show 0 < 10 by norm_num)
  unfold natDecChars
  rw [if_neg (by omega)]
  exact natDecAux_length n n k le_rfl h1 h2

theorem pad2_length (i : Int) (h0 : 0 ≤ i) (h : i ≤ 99) : (pad2 i).length = 2 := by
  unfold pad2
  split
  · rename_i hlt
    show (natDecChars i.toNat).length + 1 = 2
    by_cases hz : i.toNat = 0
    · rw [hz]
      rfl
    · rw [natDecChars_length i.toNat 0 (by omega) (by norm_num; omega)]
  · rename_i hge
    rw [natDecChars_length i.toNat 1 (by norm_num; omega) (by norm_num; omega)]

theorem splitOnDash_no_dash (A : List Char) (h : '-' ∉ A) : splitOnDash A = [A] := by
  induction A with
  | nil => rfl
  | cons c cs ih =>
    simp only [List.mem_cons, not_or] at h
    have hc : ¬ c = '-' := fun he => h.1 he.symm
    show (if c = '-' then [] :: splitOnDash cs
      else match splitOnDash cs with | [] => [[c]] | g :: gs => (c :: g) :: gs) = [c :: cs]
    rw [if_neg hc, ih h.2]

theorem splitOnDash_append (A rest : List Char) (h : '-' ∉ A) :
    splitOnDash (A ++ '-' :: rest) = A :: splitOnDash rest := by
  induction A with
  | nil =>
    show (if '-' = '-' then [] :: splitOnDash rest
      else match splitOnDash rest with | [] => [['-']] | g :: gs => ('-' :: g) :: gs)
      = [] :: splitOnDash rest
    rw [if_pos rfl]
  | cons c cs ih =>
    simp only [List.mem_cons, not_or] at h
    have hc : ¬ c = '-' := fun he => h.1 he.symm
    show (if c = '-' then [] :: splitOnDash (cs ++ '-' :: rest)
      else match splitOnDash (cs ++ '-' :: rest) with
        | [] => [[c]] | g :: gs => (c :: g) :: gs) = (c :: cs) :: splitOnDash rest
    rw [if_neg hc, ih h.2]

theorem parse3_formatCivil (y m d : Int) (hy : 0 ≤ y) (hm0 : 0 ≤ m) (hm : m ≤ 99)
    (hd0 : 0 ≤ d) (hd : d ≤ 99) : parse3 (formatCivil (y, m, d)) = (y, m, d) := by
  unfold parse3 formatCivil
  dsimp only
  rw [splitOnDash_append _ _ (dash_not_mem_intDecChars y hy),
    splitOnDash_append _ _ (dash_not_mem_pad2 m),
    splitOnDash_no_dash _ (dash_not_mem_pad2 d)]
  dsimp only
  rw [charsToNat_intDecChars y hy, charsToNat_pad2 m hm0 hm, charsToNat_pad2 d hd0 hd]
  rw [Int.toNat_of_nonneg hy, Int.toNat_of_nonneg hm0, Int.toNat_of_nonneg hd0]

theorem formatCivil_inj (c1 c2 : Int × Int × Int)
    (hm1 : 0 ≤ c1.2.1) (hm1' : c1.2.1 ≤ 99) (hd1 : 0 ≤ c1.2.2) (hd1' : c1.2.2 ≤ 99)
    (hm2 : 0 ≤ c2.2.1) (hm2' : c2.2.1 ≤ 99) (hd2 : 0 ≤ c2.2.2) (hd2' : c2.2.2 ≤ 99)
    (h : formatCivil c1 = formatCivil c2) : c1 = c2 := by
  obtain ⟨y1, m1, d1⟩ := c1
  obtain ⟨y2, m2, d2⟩ := c2
  dsimp only at hm1 hm1' hd1 hd1' hm2 hm2' hd2 hd2'
  unfold formatCivil at h
  dsimp only at h
  have hlen : ('-' :: (pad2 m1 ++ '-' :: pad2 d1)).length
      = ('-' :: (pad2 m2 ++ '-' :: pad2 d2)).length := by
    simp only [List.length_cons, List.length_append,
      pad2_length m1 hm1 hm1', pad2_length m2 hm2 hm2',
      pad2_length d1 hd1 hd1', pad2_length d2 hd2 hd2']
  obtain ⟨h1, h2⟩ := List.append_inj' h (by simpa using hlen)
  injection h2 with _ h3
  obtain ⟨h4, h5⟩ := List.append_inj h3
    (by rw [pad2_length m1 hm1 hm1', pad2_length m2 hm2 hm2'])
  injection h5 with _ h6
  have ey := intDecChars_inj h1
  have em := pad2_inj hm1 hm1' hm2 hm2' h4
  have ed := pad2_inj hd1 hd1' hd2 hd2' h6
  subst ey
  subst em
  subst ed
  rfl

theorem getLocalDateString_inj (tz t1 t2 : Int)
    (h : getLocalDateString tz t1 = getLocalDateString tz t2) :
    localDay tz t1 = localDay tz t2 := by
  unfold getLocalDateString at h
  have b1 := civilFromDays_bounds (localDay tz t1)
  have b2 := civilFromDays_bounds (localDay tz t2)
  have heq := formatCivil_inj _ _ (by omega) (by omega) (by omega) (by omega)
    (by omega) (by omega) (by omega) (by omega) h
  exact civilFromDays_injective heq

theorem getLocalDateString_congr (tz t1 t2 : Int) (h : localDay tz t1 = localDay tz t2) :
    getLocalDateString tz t1 = getLocalDateString tz t2 := by
  unfold getLocalDateString
  rw [h]

/-! ### Week-start lemmas -/

theorem localDay_mul (tz M : Int) : localDay tz (M * 1440 - tz) = M := by
  unfold localDay
  omega

theorem getWeekStart_eq (tz t : Int) :
    getWeekStart tz t
      = (localDay tz t + (if getDay tz t = 0 then -6 else 1 - getDay tz t)) * 1440 - tz := by
  unfold getWeekStart
  dsimp only
  rw [setDateAdd_eq]
  unfold setHoursZero
  rw [localDay_shift]

theorem localDay_getWeekStart (tz t : Int) :
    localDay tz (getWeekStart tz t)
      = localDay tz t + (if getDay tz t = 0 then -6 else 1 - getDay tz t) := by
  rw [getWeekStart_eq, localDay_mul]

theorem getDay_getWeekStart (tz t : Int) : getDay tz (getWeekStart tz t) = 1 := by
  unfold getDay
  rw [localDay_getWeekStart]
  unfold getDay
  split_ifs <;> omega

theorem localDay_getWeekStart_shift (tz t k : Int) :
    localDay tz (getWeekStart tz (t - k * 10080))
      = localDay tz (getWeekStart tz t) - 7 * k := by
  rw [localDay_getWeekStart, localDay_getWeekStart]
  unfold getDay
  have harg : t - k * 10080 = t + -(7 * k) * 1440 := by ring
  rw [harg, localDay_shift]
  split_ifs <;> omega

/-! ### Walk lemmas -/

theorem walkDaily_succ (tz : Int) (s : Finset JSString) (fuel : Nat) (t : Int) :
    walkDaily tz s (fuel + 1) t
      = if getLocalDateString tz t ∈ s then walkDaily tz s fuel (setDateAdd tz t (-1)) + 1
        else 0 := rfl

theorem walkWeekly_succ (tz : Int) (s : Finset JSString) (fuel : Nat) (t : Int) :
    walkWeekly tz s (fuel + 1) t
      = if getWeekIdentifier tz t ∈ s then walkWeekly tz s fuel (setDateAdd tz t (-7)) + 1
        else 0 := rfl

theorem walkDaily_spec (tz : Int) (s : Finset JSString) :
    ∀ (fuel : Nat) (t : Int) (n : Nat), n < fuel →
      (∀ k : Nat, k < n → getLocalDateString tz (t - k * 1440) ∈ s) →
      getLocalDateString tz (t - n * 1440) ∉ s →
      walkDaily tz s fuel t = n := by
  intro fuel
  induction fuel with
  | zero => intro t n hn _ _; omega
  | succ f ih =>
    intro t n hn hmem habs
    cases n with
    | zero =>
      have h0 : getLocalDateString tz t ∉ s := by simpa using habs
      rw [walkDaily_succ, if_neg h0]
    | succ n2 =>
      have h0 : getLocalDateString tz t ∈ s := by
        have := hmem 0 (by omega)
        simpa using this
      rw [walkDaily_succ, if_pos h0, setDateAdd_eq]
      have harg : t + (-1) * 1440 = t - 1440 := by ring
      rw [harg]
      have hmem2 : ∀ k : Nat, k < n2 → getLocalDateString tz (t - 1440 - k * 1440) ∈ s := by
        intro k hk
        have harg2 : t - 1440 - (k : Int) * 1440 = t - ((k + 1 : Nat) : Int) * 1440 := by
          push_cast
          ring
        rw [harg2]
        exact hmem (k + 1) (by omega)
      have habs2 : getLocalDateString tz (t - 1440 - (n2 : Int) * 1440) ∉ s := by
        have harg2 : t - 1440 - (n2 : Int) * 1440 = t - ((n2 + 1 : Nat) : Int) * 1440 := by
          push_cast
          ring
        rw [harg2]
        exact habs
      rw [ih (t - 1440) n2 (by omega) hmem2 habs2]

theorem walkWeekly_spec (tz : Int) (s : Finset JSString) :
    ∀ (fuel : Nat) (t : Int) (n : Nat), n < fuel →
      (∀ k : Nat, k < n → getWeekIdentifier tz (t - k * 10080) ∈ s) →
      getWeekIdentifier tz (t - n * 10080) ∉ s →
      walkWeekly tz s fuel t = n := by
  intro fuel
  induction fuel with
  | zero => intro t n hn _ _; omega
  | succ f ih =>
    intro t n hn hmem habs
    cases n with
    | zero =>
      have h0 : getWeekIdentifier tz t ∉ s := by simpa using habs
      rw [walkWeekly_succ, if_neg h0]
    | succ n2 =>
      have h0 : getWeekIdentifier tz t ∈ s := by
        have := hmem 0 (by omega)
        simpa using this
      rw [walkWeekly_succ, if_pos h0, setDateAdd_eq]
      have harg : t + (-7) * 1440 = t - 10080 := by ring
      rw [harg]
      have hmem2 : ∀ k : Nat, k < n2 → getWeekIdentifier tz (t - 10080 - k * 10080) ∈ s := by
        intro k hk
        have harg2 : t - 10080 - (k : Int) * 10080 = t - ((k + 1 : Nat) : Int) * 10080 := by
          push_cast
          ring
        rw [harg2]
        exact hmem (k + 1) (by omega)
      have habs2 : getWeekIdentifier tz (t - 10080 - (n2 : Int) * 10080) ∉ s := by
        have harg2 : t - 10080 - (n2 : Int) * 10080 = t - ((n2 + 1 : Nat) : Int) * 10080 := by
          push_cast
          ring
        rw [harg2]
        exact habs
      rw [ih (t - 10080) n2 (by omega) hmem2 habs2]

theorem walkDaily_mem (tz : Int) (s : Finset JSString) :
    ∀ (fuel : Nat) (t : Int) (k : Nat), k < walkDaily tz s fuel t →
      getLocalDateString tz (t - k * 1440) ∈ s := by
  intro fuel
  induction fuel with
  | zero =>
    intro t k hk
    rw [show walkDaily tz s 0 t = 0 from rfl] at hk
    omega
  | succ f ih =>
    intro t k hk
    rw [walkDaily_succ] at hk
    by_cases h0 : getLocalDateString tz t ∈ s
    · rw [if_pos h0, setDateAdd_eq] at hk
      cases k with
      | zero => simpa using h0
      | succ k2 =>
        have harg : t + (-1) * 1440 = t - 1440 := by ring
        rw [harg] at hk
        have := ih (t - 1440) k2 (by omega)
        have harg2 : t - 1440 - (k2 : Int) * 1440 = t - ((k2 + 1 : Nat) : Int) * 1440 := by
          push_cast
          ring
        rw [harg2] at this
        exact this
    · rw [if_neg h0] at hk
      omega

theorem walkWeekly_mem (tz : Int) (s : Finset JSString) :
    ∀ (fuel : Nat) (t : Int) (k : Nat), k < walkWeekly tz s fuel t →
      getWeekIdentifier tz (t - k * 10080) ∈ s := by
  intro fuel
  induction fuel with
  | zero =>
    intro t k hk
    rw [show walkWeekly tz s 0 t = 0 from rfl] at hk
    omega
  | succ f ih =>
    intro t k hk
    rw [walkWeekly_succ] at hk
    by_cases h0 : getWeekIdentifier tz t ∈ s
    · rw [if_pos h0, setDateAdd_eq] at hk
      cases k with
      | zero => simpa using h0
      | succ k2 =>
        have harg : t + (-7) * 1440 = t - 10080 := by ring
        rw [harg] at hk
        have := ih (t - 10080) k2 (by omega)
        have harg2 : t - 10080 - (k2 : Int) * 10080 = t - ((k2 + 1 : Nat) : Int) * 10080 := by
          push_cast
          ring
        rw [harg2] at this
        exact this
    · rw [if_neg h0] at hk
      omega

theorem consecutive_le_card (s : Finset JSString) (f : Nat → JSString) (N : Nat)
    (hinj : ∀ i j : Nat, i < N → j < N → f i = f j → i = j)
    (hmem : ∀ k : Nat, k < N → f k ∈ s) : N ≤ s.card := by
  have h1 : (Finset.range N).card ≤ s.card := by
    apply Finset.card_le_card_of_injOn f
    · intro a ha
      exact hmem a (Finset.mem_range.mp ha)
    · intro a ha b hb hab
      exact hinj a b (Finset.mem_range.mp ha) (Finset.mem_range.mp hb) hab
  simpa using h1

theorem dailyIds_inj (tz t : Int) (N : Nat) : ∀ i j : Nat, i < N → j < N →
    getLocalDateString tz (t - i * 1440) = getLocalDateString tz (t - j * 1440) → i = j := by
  intro i j _ _ h
  have hld := getLocalDateString_inj tz _ _ h
  have hi : t - (i : Int) * 1440 = t + -(i : Int) * 1440 := by ring
  have hj : t - (j : Int) * 1440 = t + -(j : Int) * 1440 := by ring
  rw [hi, hj, localDay_shift, localDay_shift] at hld
  omega

theorem weekIds_inj (tz t : Int) (N : Nat) : ∀ i j : Nat, i < N → j < N →
    getWeekIdentifier tz (t - i * 10080) = getWeekIdentifier tz (t - j * 10080) → i = j := by
  intro i j _ _ h
  unfold getWeekIdentifier at h
  have hld := getLocalDateString_inj tz _ _ h
  rw [localDay_getWeekStart_shift, localDay_getWeekStart_shift] at hld
  omega

theorem walkDaily_le_card (tz : Int) (s : Finset JSString) (fuel : Nat) (t : Int) :
    walkDaily tz s fuel t ≤ s.card := by
  by_contra hlt
  push_neg at hlt
  have hmem : ∀ k : Nat, k < s.card + 1 → getLocalDateString tz (t - k * 1440) ∈ s :=
    fun k hk => walkDaily_mem tz s fuel t k (by omega)
  have := consecutive_le_card s _ (s.card + 1) (dailyIds_inj tz t (s.card + 1)) hmem
  omega

theorem walkWeekly_le_card (tz : Int) (s : Finset JSString) (fuel : Nat) (t : Int) :
    walkWeekly tz s fuel t ≤ s.card := by
  by_contra hlt
  push_neg at hlt
  have hmem : ∀ k : Nat, k < s.card + 1 → getWeekIdentifier tz (t - k * 10080) ∈ s :=
    fun k hk => walkWeekly_mem tz s fuel t k (by omega)
  have := consecutive_le_card s _ (s.card + 1) (weekIds_inj tz t (s.card + 1)) hmem
  omega

theorem exists_absent_daily (tz : Int) (s : Finset JSString) (t : Int) :
    ∃ n : Nat, n ≤ s.card ∧ (∀ k : Nat, k < n → getLocalDateString tz (t - k * 1440) ∈ s) ∧
      getLocalDateString tz (t - n * 1440) ∉ s := by
  have hex : ∃ m : Nat, getLocalDateString tz (t - m * 1440) ∉ s := by
    by_contra hall
    push_neg at hall
    have := consecutive_le_card s _ (s.card + 1) (dailyIds_inj tz t _) fun k _ => hall k
    omega
  refine ⟨Nat.find hex, ?_, ?_, Nat.find_spec hex⟩
  · by_contra hgt
    push_neg at hgt
    have hmem : ∀ k : Nat, k < s.card + 1 → getLocalDateString tz (t - k * 1440) ∈ s := by
      intro k hk
      have := Nat.find_min hex (show k < Nat.find hex by omega)
      simpa using this
    have := consecutive_le_card s _ (s.card + 1) (dailyIds_inj tz t _) hmem
    omega
  · intro k hk
    have := Nat.find_min hex hk
    simpa using this

theorem exists_absent_weekly (tz : Int) (s : Finset JSString) (t : Int) :
    ∃ n : Nat, n ≤ s.card ∧ (∀ k : Nat, k < n → getWeekIdentifier tz (t - k * 10080) ∈ s) ∧
      getWeekIdentifier tz (t - n * 10080) ∉ s := by
  have hex : ∃ m : Nat, getWeekIdentifier tz (t - m * 10080) ∉ s := by
    by_contra hall
    push_neg at hall
    have := consecutive_le_card s _ (s.card + 1) (weekIds_inj tz t _) fun k _ => hall k
    omega
  refine ⟨Nat.find hex, ?_, ?_, Nat.find_spec hex⟩
  · by_contra hgt
    push_neg at hgt
    have hmem : ∀ k : Nat, k < s.card + 1 → getWeekIdentifier tz (t - k * 10080) ∈ s := by
      intro k hk
      have := Nat.find_min hex (show k < Nat.find hex by omega)
      simpa using this
    have := consecutive_le_card s _ (s.card + 1) (weekIds_inj tz t _) hmem
    omega
  · intro k hk
    have := Nat.find_min hex hk
    simpa using this

theorem localDay_sub (tz t j : Int) : localDay tz (t - j * 1440) = localDay tz t - j := by
  have h : t - j * 1440 = t + -j * 1440 := by ring
  rw [h, localDay_shift]
  ring

theorem natDecChars_ne_nil (n : Nat) : natDecChars n ≠ [] := by
  unfold natDecChars
  split
  · simp
  · rename_i hn
    obtain ⟨f, rfl⟩ : ∃ f, n = f + 1 := ⟨n - 1, by omega⟩
    rw [natDecAux_succ f (f + 1) hn]
    simp

theorem getLocalDateString_ne_notADate (tz t : Int) : getLocalDateString tz t ≠ notADate := by
  intro h
  unfold getLocalDateString formatCivil at h
  have hhead : ∃ c cs, intDecChars (civilFromDays (localDay tz t)).1 = c :: cs ∧
      (c = '-' ∨ (48 ≤ c.toNat ∧ c.toNat ≤ 57)) := by
    unfold intDecChars
    split
    · exact ⟨'-', _, rfl, Or.inl rfl⟩
    · obtain ⟨c, cs, hcons⟩ :=
        List.exists_cons_of_ne_nil (natDecChars_ne_nil (civilFromDays (localDay tz t)).1.toNat)
      refine ⟨c, cs, hcons, Or.inr ?_⟩
      exact mem_natDecChars_digit _ c (hcons ▸ List.mem_cons_self c cs)
  obtain ⟨c, cs, hcons, hc⟩ := hhead
  rw [hcons] at h
  have hn : c = 'n' := by
    have := congrArg (fun l => l.head?) h
    simpa [notADate] using this
  subst hn
  rcases hc with h1 | h1
  · exact absurd h1 (by decide)
  · revert h1
    decide

theorem getWeekIdentifier_ne_notADate (tz t : Int) : getWeekIdentifier tz t ≠ notADate :=
  getLocalDateString_ne_notADate tz (getWeekStart tz t)

/-! ### Claim theorems -/

/-- Claim C9: `weekStart` is idempotent: applying `getWeekStart` to its own
result (the local-midnight Monday) returns the same instant, for every
instant and every fixed timezone offset. -/
theorem getWeekStart_idempotent (tz t : Int) :
    getWeekStart tz (getWeekStart tz t) = getWeekStart tz t := by
  rw [getWeekStart_eq tz (getWeekStart tz t), getDay_getWeekStart]
  norm_num
  rw [localDay_getWeekStart]
  conv_rhs => rw [getWeekStart_eq]

/-- Claim C10: the backward-walking loops of `getStreakCount` terminate —
any fuel beyond `card + 1` gives the same count as fuel `card + 1`, because
each counted step consumes a distinct identifier of the completion set —
and consequently the streak count never exceeds the size of the set. -/
theorem getStreakCount_terminates_and_le (tz now : Int) (s : Finset JSString)
    (freq : JSString) :
    (∀ (t : Int) (fuel : Nat), s.card + 1 ≤ fuel →
      walkDaily tz s fuel t = walkDaily tz s (s.card + 1) t) ∧
    (∀ (t : Int) (fuel : Nat), s.card + 1 ≤ fuel →
      walkWeekly tz s fuel t = walkWeekly tz s (s.card + 1) t) ∧
    getStreakCount tz s freq now ≤ s.card := by
  refine ⟨?_, ?_, ?_⟩
  · intro t fuel hf
    obtain ⟨n, hn, hmem, habs⟩ := exists_absent_daily tz s t
    rw [walkDaily_spec tz s fuel t n (by omega) hmem habs,
      walkDaily_spec tz s (s.card + 1) t n (by omega) hmem habs]
  · intro t fuel hf
    obtain ⟨n, hn, hmem, habs⟩ := exists_absent_weekly tz s t
    rw [walkWeekly_spec tz s fuel t n (by omega) hmem habs,
      walkWeekly_spec tz s (s.card + 1) t n (by omega) hmem habs]
  · unfold getStreakCount
    dsimp only
    split_ifs <;>
      first
        | omega
        | exact walkDaily_le_card tz s (s.card + 1) _
        | exact walkWeekly_le_card tz s (s.card + 1) _

/-- Claim C6 (amended): `getStreakCount` treats every cadence other than
`"weekly"` exactly like `"daily"` — there is no `InvalidCadence`
rejection in the code. -/
theorem getStreakCount_default_daily (tz now : Int) (s : Finset JSString)
    (freq : JSString) (hfreq : freq ≠ weeklyStr) :
    getStreakCount tz s freq now = getStreakCount tz s dailyStr now := by
  unfold getStreakCount
  by_cases hc : s.card = 0
  · rw [if_pos hc, if_pos hc]
  · rw [if_neg hc, if_neg hc, if_neg hfreq,
      if_neg (show ¬(dailyStr = weeklyStr) by decide)]

/-- Claim C6 (counterexample to the claim as stated): the out-of-range
cadence `"monthly"` is not rejected; with completion set `{today}` the
call returns the daily-branch count 1. -/
theorem getStreakCount_monthly_counterexample :
    getStreakCount 0 ({getLocalDateString 0 28506240} : Finset JSString)
        (['m', 'o', 'n', 't', 'h', 'l', 'y'] : JSString) 28506840 = 1 ∧
    getStreakCount 0 ({getLocalDateString 0 28506240} : Finset JSString)
        dailyStr 28506840 = 1 := by
  constructor <;> decide

/-- Claim C6 (witness): the amended theorem applied to cadence `"monthly"`. -/
theorem getStreakCount_default_daily_witness :
    getStreakCount 0 ({getLocalDateString 0 28506240} : Finset JSString)
        (['m', 'o', 'n', 't', 'h', 'l', 'y'] : JSString) 28506840
      = getStreakCount 0 ({getLocalDateString 0 28506240} : Finset JSString)
        dailyStr 28506840 :=
  getStreakCount_default_daily 0 28506840 _ _ (by decide)

/-- Claim C4: with daily cadence, if neither today's nor yesterday's local
identifier is in the completion set the streak is 0 regardless of any
older entries, and the empty completion set yields 0 for every cadence. -/
theorem getStreakCount_broken_and_empty (tz now : Int) (s : Finset JSString)
    (freq : JSString) (hT : getLocalDateString tz now ∉ s)
    (hY : getLocalDateString tz (now - 1440) ∉ s) :
    getStreakCount tz s dailyStr now = 0 ∧
    getStreakCount tz (∅ : Finset JSString) freq now = 0 := by
  constructor
  · unfold getStreakCount
    by_cases hc : s.card = 0
    · rw [if_pos hc]
    · rw [if_neg hc, if_neg (show ¬(dailyStr = weeklyStr) by decide)]
      dsimp only
      have hTc : getLocalDateString tz (setHoursZero tz now) = getLocalDateString tz now :=
        getLocalDateString_congr _ _ _ (setHoursZero_localDay tz now)
      have hYc : getLocalDateString tz (setDateAdd tz (setHoursZero tz now) (-1))
          = getLocalDateString tz (now - 1440) := by
        apply getLocalDateString_congr
        rw [setDateAdd_eq, localDay_shift, setHoursZero_localDay]
        have h : now - 1440 = now - 1 * 1440 := by ring
        rw [h, localDay_sub]
        ring
      rw [hTc, if_neg hT, hYc, if_neg hY]
  · unfold getStreakCount
    rw [if_pos Finset.card_empty]

/-- Claim C1: with daily cadence, if the completion set contains today's
local identifier together with the `N - 1` immediately preceding
consecutive daily identifiers, and not the `N`-th preceding identifier,
then `getStreakCount` returns exactly `N` (extra unrelated entries in the
set are irrelevant). -/
theorem getStreakCount_daily_exact (tz now : Int) (s : Finset JSString) (N : Nat)
    (hN : 1 ≤ N)
    (hmem : ∀ k : Nat, k < N → getLocalDateString tz (now - k * 1440) ∈ s)
    (habs : getLocalDateString tz (now - N * 1440) ∉ s) :
    getStreakCount tz s dailyStr now = N := by
  have h0 : getLocalDateString tz now ∈ s := by
    have := hmem 0 hN
    simpa using this
  have hcard : ¬ s.card = 0 := by
    have hpos := Finset.card_pos.mpr ⟨_, h0⟩
    omega
  unfold getStreakCount
  rw [if_neg hcard, if_neg (show ¬(dailyStr = weeklyStr) by decide)]
  dsimp only
  have hTc : getLocalDateString tz (setHoursZero tz now) = getLocalDateString tz now :=
    getLocalDateString_congr _ _ _ (setHoursZero_localDay tz now)
  rw [hTc, if_pos h0]
  have hNcard : N ≤ s.card := consecutive_le_card s _ N (dailyIds_inj tz now N) hmem
  have hshift : ∀ k : Nat, getLocalDateString tz (setHoursZero tz now - k * 1440)
      = getLocalDateString tz (now - k * 1440) := by
    intro k
    apply getLocalDateString_congr
    rw [localDay_sub, localDay_sub, setHoursZero_localDay]
  apply walkDaily_spec tz s (s.card + 1) (setHoursZero tz now) N (by omega)
  · intro k hk
    rw [hshift k]
    exact hmem k hk
  · rw [hshift N]
    exact habs

/-- Claim C1 (witness): `now` = 2024-03-14 10:00 UTC at offset 0, completions
exactly the identifiers of 2024-03-12..14; the streak is 3. -/
theorem getStreakCount_daily_exact_witness :
    getStreakCount 0 ({getLocalDateString 0 28506240, getLocalDateString 0 28504800,
        getLocalDateString 0 28503360} : Finset JSString) dailyStr 28506840 = 3 := by
  apply getStreakCount_daily_exact 0 28506840 _ 3 (by omega)
  · decide
  · decide

/-- Claim C3: with daily cadence, if today's identifier is absent but
yesterday's is present, the count starts from the grace day: with exactly
`m ≥ 1` consecutive identifiers present ending at yesterday (and the next
older one absent), the result is `m`; in particular `{yesterday}` gives 1
and `{now - 2 days, now - 1 day}` gives 2. -/
theorem getStreakCount_daily_grace (tz now : Int) (s : Finset JSString) (m : Nat)
    (hm : 1 ≤ m)
    (hT : getLocalDateString tz now ∉ s)
    (hmem : ∀ k : Nat, k < m → getLocalDateString tz (now - (k + 1) * 1440) ∈ s)
    (habs : getLocalDateString tz (now - (m + 1) * 1440) ∉ s) :
    getStreakCount tz s dailyStr now = m := by
  have hy : getLocalDateString tz (now - 1440) ∈ s := by
    have h := hmem 0 hm
    norm_num at h
    exact h
  have hcard : ¬ s.card = 0 := by
    have hpos := Finset.card_pos.mpr ⟨_, hy⟩
    omega
  unfold getStreakCount
  rw [if_neg hcard, if_neg (show ¬(dailyStr = weeklyStr) by decide)]
  dsimp only
  have hTc : getLocalDateString tz (setHoursZero tz now) = getLocalDateString tz now :=
    getLocalDateString_congr _ _ _ (setHoursZero_localDay tz now)
  rw [hTc, if_neg hT]
  have hYc : getLocalDateString tz (setDateAdd tz (setHoursZero tz now) (-1))
      = getLocalDateString tz (now - 1440) := by
    apply getLocalDateString_congr
    rw [setDateAdd_eq, localDay_shift, setHoursZero_localDay]
    have h : now - 1440 = now - 1 * 1440 := by ring
    rw [h, localDay_sub]
    ring
  rw [hYc, if_pos hy]
  have hmem2 : ∀ k : Nat, k < m → getLocalDateString tz ((now - 1440) - k * 1440) ∈ s := by
    intro k hk
    have harg : now - 1440 - (k : Int) * 1440 = now - ((k : Int) + 1) * 1440 := by ring
    rw [harg]
    exact hmem k hk
  have hmcard : m ≤ s.card :=
    consecutive_le_card s _ m (dailyIds_inj tz (now - 1440) m) hmem2
  have hshift : ∀ k : Nat,
      getLocalDateString tz (setDateAdd tz (setHoursZero tz now) (-1) - k * 1440)
        = getLocalDateString tz (now - 1440 - k * 1440) := by
    intro k
    apply getLocalDateString_congr
    rw [localDay_sub, localDay_sub, setDateAdd_eq, localDay_shift, setHoursZero_localDay]
    have h : now - 1440 = now - 1 * 1440 := by ring
    rw [h, localDay_sub]
    ring
  apply walkDaily_spec tz s (s.card + 1) _ m (by omega)
  · intro k hk
    rw [hshift k]
    exact hmem2 k hk
  · rw [hshift m]
    have harg : now - 1440 - (m : Int) * 1440 = now - ((m + 1 : Nat) : Int) * 1440 := by
      push_cast
      ring
    rw [harg]
    exact habs

/-- Claim C3 (witness): completions exactly `{now - 2 days, now - 1 day}` with
today absent; the count from the grace day is 2. -/
theorem getStreakCount_daily_grace_witness :
    getStreakCount 0 ({getLocalDateString 0 28504800,
        getLocalDateString 0 28503360} : Finset JSString) dailyStr 28506840 = 2 := by
  apply getStreakCount_daily_grace 0 28506840 _ 2 (by omega)
  · decide
  · decide
  · decide

/-- Claim C4 (witness): an older entry (2024-03-10) alone gives 0, and the
empty set gives 0 for the weekly cadence too. -/
theorem getStreakCount_broken_and_empty_witness :
    getStreakCount 0 ({getLocalDateString 0 28500480} : Finset JSString) dailyStr 28506840 = 0 ∧
    getStreakCount 0 (∅ : Finset JSString) weeklyStr 28506840 = 0 := by
  exact getStreakCount_broken_and_empty 0 28506840 _ weeklyStr (by decide) (by decide)

theorem walkDaily_congr_sets (tz : Int) (s1 s2 : Finset JSString) (t : Int) (f1 f2 : Nat)
    (hiff : ∀ u : Int, getLocalDateString tz u ∈ s1 ↔ getLocalDateString tz u ∈ s2)
    (h1 : s2.card < f1) (h2 : s2.card < f2) :
    walkDaily tz s1 f1 t = walkDaily tz s2 f2 t := by
  obtain ⟨n, hn, hmem, habs⟩ := exists_absent_daily tz s2 t
  rw [walkDaily_spec tz s1 f1 t n (by omega) (fun k hk => (hiff _).mpr (hmem k hk))
      (fun hcon => habs ((hiff _).mp hcon)),
    walkDaily_spec tz s2 f2 t n (by omega) hmem habs]

theorem walkWeekly_congr_sets (tz : Int) (s1 s2 : Finset JSString) (t : Int) (f1 f2 : Nat)
    (hiff : ∀ u : Int, getWeekIdentifier tz u ∈ s1 ↔ getWeekIdentifier tz u ∈ s2)
    (h1 : s2.card < f1) (h2 : s2.card < f2) :
    walkWeekly tz s1 f1 t = walkWeekly tz s2 f2 t := by
  obtain ⟨n, hn, hmem, habs⟩ := exists_absent_weekly tz s2 t
  rw [walkWeekly_spec tz s1 f1 t n (by omega) (fun k hk => (hiff _).mpr (hmem k hk))
      (fun hcon => habs ((hiff _).mp hcon)),
    walkWeekly_spec tz s2 f2 t n (by omega) hmem habs]

/-- Claim C5 (amended): a malformed completion entry such as `"not-a-date"`
is silently ignored — it can never equal an engine-generated identifier,
so inserting it into any completion set leaves `getStreakCount` unchanged
for every cadence, and no error of any kind is signalled. -/
theorem getStreakCount_ignores_malformed (tz now : Int) (s : Finset JSString)
    (freq : JSString) :
    getStreakCount tz (insert notADate s) freq now = getStreakCount tz s freq now := by
  by_cases hmem : notADate ∈ s
  · rw [Finset.insert_eq_self.mpr hmem]
  have hcard : (insert notADate s).card = s.card + 1 := Finset.card_insert_of_not_mem hmem
  have hdm : ∀ u : Int,
      getLocalDateString tz u ∈ insert notADate s ↔ getLocalDateString tz u ∈ s := by
    intro u
    simp [Finset.mem_insert, getLocalDateString_ne_notADate tz u]
  have hwm : ∀ u : Int,
      getWeekIdentifier tz u ∈ insert notADate s ↔ getWeekIdentifier tz u ∈ s := by
    intro u
    simp [Finset.mem_insert, getWeekIdentifier_ne_notADate tz u]
  unfold getStreakCount
  by_cases hempty : s.card = 0
  · have hs : s = ∅ := Finset.card_eq_zero.mp hempty
    subst hs
    rw [if_neg (by omega), if_pos Finset.card_empty]
    by_cases hfreq : freq = weeklyStr
    · rw [if_pos hfreq]
      dsimp only
      have hA : getWeekIdentifier tz now ∉ insert notADate ∅ :=
        fun h => Finset.not_mem_empty _ ((hwm now).mp h)
      have hB : getWeekIdentifier tz (setDateAdd tz now (-7)) ∉ insert notADate ∅ :=
        fun h => Finset.not_mem_empty _ ((hwm _).mp h)
      rw [if_pos ⟨hA, hB⟩]
    · rw [if_neg hfreq]
      dsimp only
      have hA : getLocalDateString tz (setHoursZero tz now) ∉ insert notADate ∅ :=
        fun h => Finset.not_mem_empty _ ((hdm _).mp h)
      have hB : getLocalDateString tz (setDateAdd tz (setHoursZero tz now) (-1))
          ∉ insert notADate ∅ :=
        fun h => Finset.not_mem_empty _ ((hdm _).mp h)
      rw [if_neg hA, if_neg hB]
  · rw [if_neg (by omega), if_neg hempty]
    by_cases hfreq : freq = weeklyStr
    · rw [if_pos hfreq, if_pos hfreq]
      dsimp only
      by_cases hcw : getWeekIdentifier tz now ∈ s
      · have hcw2 : getWeekIdentifier tz now ∈ insert notADate s := (hwm now).mpr hcw
        have hn1 : ¬(getWeekIdentifier tz now ∉ insert notADate s ∧
            getWeekIdentifier tz (setDateAdd tz now (-7)) ∉ insert notADate s) :=
          fun h => h.1 hcw2
        have hn2 : ¬(getWeekIdentifier tz now ∉ s ∧
            getWeekIdentifier tz (setDateAdd tz now (-7)) ∉ s) :=
          fun h => h.1 hcw
        rw [if_neg hn1, if_neg hn2, if_pos hcw2, if_pos hcw]
        exact walkWeekly_congr_sets tz _ s _ _ _ hwm (by omega) (by omega)
      · by_cases hlw : getWeekIdentifier tz (setDateAdd tz now (-7)) ∈ s
        · have hcw2 : getWeekIdentifier tz now ∉ insert notADate s :=
            fun h => hcw ((hwm now).mp h)
          have hlw2 : getWeekIdentifier tz (setDateAdd tz now (-7)) ∈ insert notADate s :=
            (hwm _).mpr hlw
          have hn1 : ¬(getWeekIdentifier tz now ∉ insert notADate s ∧
              getWeekIdentifier tz (setDateAdd tz now (-7)) ∉ insert notADate s) :=
            fun h => h.2 hlw2
          have hn2 : ¬(getWeekIdentifier tz now ∉ s ∧
              getWeekIdentifier tz (setDateAdd tz now (-7)) ∉ s) :=
            fun h => h.2 hlw
          rw [if_neg hn1, if_neg hn2, if_neg hcw2, if_neg hcw]
          exact walkWeekly_congr_sets tz _ s _ _ _ hwm (by omega) (by omega)
        · have hcw2 : getWeekIdentifier tz now ∉ insert notADate s :=
            fun h => hcw ((hwm now).mp h)
          have hlw2 : getWeekIdentifier tz (setDateAdd tz now (-7)) ∉ insert notADate s :=
            fun h => hlw ((hwm _).mp h)
          rw [if_pos ⟨hcw2, hlw2⟩, if_pos ⟨hcw, hlw⟩]
    · rw [if_neg hfreq, if_neg hfreq]
      dsimp only
      by_cases hT : getLocalDateString tz (setHoursZero tz now) ∈ s
      · rw [if_pos ((hdm _).mpr hT), if_pos hT]
        exact walkDaily_congr_sets tz _ s _ _ _ hdm (by omega) (by omega)
      · have hT2 : getLocalDateString tz (setHoursZero tz now) ∉ insert notADate s :=
          fun h => hT ((hdm _).mp h)
        rw [if_neg hT2, if_neg hT]
        by_cases hY : getLocalDateString tz (setDateAdd tz (setHoursZero tz now) (-1)) ∈ s
        · rw [if_pos ((hdm _).mpr hY), if_pos hY]
          exact walkDaily_congr_sets tz _ s _ _ _ hdm (by omega) (by omega)
        · have hY2 : getLocalDateString tz (setDateAdd tz (setHoursZero tz now) (-1))
              ∉ insert notADate s :=
            fun h => hY ((hdm _).mp h)
          rw [if_neg hY2, if_neg hY]

/-- Claim C5 (counterexample to the claim as stated): with the malformed
entry `"not-a-date"` in the completion set, `getStreakCount` does not
fail — it returns the same count 1 as without the entry. -/
theorem getStreakCount_malformed_counterexample :
    getStreakCount 0 ({notADate, getLocalDateString 0 28506240} : Finset JSString)
        dailyStr 28506840 = 1 ∧
    getStreakCount 0 ({getLocalDateString 0 28506240} : Finset JSString)
        dailyStr 28506840 = 1 := by
  constructor <;> decide

/-- Claim C7: `getLocalDateString` produces the `YYYY-MM-DD` string of the
instant's *local* civil date (for any timezone offset): parsing it with
the engine's own `split("-").map(Number)` recovers exactly the local
civil triple, the string has the 10-character zero-padded shape, and
re-parsing it through the local `new Date(y, m - 1, d)` path and
reformatting yields the identical string. -/
theorem getLocalDateString_roundtrip (tz t : Int)
    (h1 : 1000 ≤ (civilFromDays (localDay tz t)).1)
    (h2 : (civilFromDays (localDay tz t)).1 ≤ 9999) :
    parse3 (getLocalDateString tz t) = civilFromDays (localDay tz t) ∧
    (getLocalDateString tz t).length = 10 ∧
    getLocalDateString tz (jsDateYMD tz (parse3 (getLocalDateString tz t)).1
        (parse3 (getLocalDateString tz t)).2.1 (parse3 (getLocalDateString tz t)).2.2)
      = getLocalDateString tz t := by
  obtain ⟨hm1, hm2, hd1, hd2⟩ := civilFromDays_bounds (localDay tz t)
  rcases hcc : civilFromDays (localDay tz t) with ⟨y, m, d⟩
  rw [hcc] at hm1 hm2 hd1 hd2 h1 h2
  dsimp only at hm1 hm2 hd1 hd2 h1 h2
  have hparse : parse3 (getLocalDateString tz t) = (y, m, d) := by
    unfold getLocalDateString
    rw [hcc]
    exact parse3_formatCivil y m d (by omega) (by omega) (by omega) (by omega) (by omega)
  refine ⟨by rw [hparse], ?_, ?_⟩
  · unfold getLocalDateString formatCivil
    rw [hcc]
    dsimp only
    rw [List.length_append]
    simp only [List.length_cons, List.length_append]
    have hy4 : (intDecChars y).length = 4 := by
      unfold intDecChars
      rw [if_neg (by omega)]
      exact natDecChars_length y.toNat 3 (by norm_num; omega) (by norm_num; omega)
    rw [hy4, pad2_length m (by omega) (by omega), pad2_length d (by omega) (by omega)]
  · rw [hparse]
    dsimp only
    unfold jsDateYMD
    rw [if_neg (by omega)]
    have hL1 : daysFromCivil y m d = localDay tz t := by
      have h3 := daysFromCivil_civilFromDays (localDay tz t)
      rw [hcc] at h3
      exact h3
    rw [hL1]
    unfold getLocalDateString
    rw [localDay_mul]

/-- Claim C7 (witness): offset UTC-8, instant 2024-03-14 00:00 UTC. -/
theorem getLocalDateString_roundtrip_witness :
    parse3 (getLocalDateString (-480) 28506240)
        = civilFromDays (localDay (-480) 28506240) ∧
    (getLocalDateString (-480) 28506240).length = 10 ∧
    getLocalDateString (-480) (jsDateYMD (-480) (parse3 (getLocalDateString (-480) 28506240)).1
        (parse3 (getLocalDateString (-480) 28506240)).2.1
        (parse3 (getLocalDateString (-480) 28506240)).2.2)
      = getLocalDateString (-480) 28506240 :=
  getLocalDateString_roundtrip (-480) 28506240 (by decide) (by decide)

/-- Claim C8: `getWeekDates (getWeekIdentifier d)` returns the pair
`(start, end)` where `start` is exactly the local-midnight Monday
`getWeekStart d` of the week containing `d`, `end` is `start + 6` days,
and at the calendar-day level `start ≤ d ≤ end` with `start` a Monday at
local midnight. -/
theorem getWeekDates_getWeekIdentifier_spec (tz t : Int)
    (h1 : 1000 ≤ (civilFromDays (localDay tz (getWeekStart tz t))).1)
    (h2 : (civilFromDays (localDay tz (getWeekStart tz t))).1 ≤ 9999) :
    (getWeekDates tz (getWeekIdentifier tz t)).1 = getWeekStart tz t ∧
    (getWeekDates tz (getWeekIdentifier tz t)).2 = getWeekStart tz t + 6 * 1440 ∧
    localDay tz (getWeekDates tz (getWeekIdentifier tz t)).1 ≤ localDay tz t ∧
    localDay tz t ≤ localDay tz (getWeekDates tz (getWeekIdentifier tz t)).2 ∧
    getDay tz (getWeekDates tz (getWeekIdentifier tz t)).1 = 1 ∧
    setHoursZero tz (getWeekDates tz (getWeekIdentifier tz t)).1
      = (getWeekDates tz (getWeekIdentifier tz t)).1 := by
  obtain ⟨hm1, hm2, hd1, hd2⟩ := civilFromDays_bounds (localDay tz (getWeekStart tz t))
  have hstart : (getWeekDates tz (getWeekIdentifier tz t)).1 = getWeekStart tz t := by
    unfold getWeekDates getWeekIdentifier
    dsimp only
    unfold getLocalDateString
    rcases hcc : civilFromDays (localDay tz (getWeekStart tz t)) with ⟨y, m, d⟩
    rw [hcc] at hm1 hm2 hd1 hd2 h1 h2
    dsimp only at hm1 hm2 hd1 hd2 h1 h2
    rw [parse3_formatCivil y m d (by omega) (by omega) (by omega) (by omega) (by omega)]
    dsimp only
    unfold jsDateYMD
    rw [if_neg (by omega)]
    have hL1 : daysFromCivil y m d = localDay tz (getWeekStart tz t) := by
      have h3 := daysFromCivil_civilFromDays (localDay tz (getWeekStart tz t))
      rw [hcc] at h3
      exact h3
    rw [hL1]
    conv_rhs => rw [getWeekStart_eq]
    rw [localDay_getWeekStart]
  have hend : (getWeekDates tz (getWeekIdentifier tz t)).2
      = (getWeekDates tz (getWeekIdentifier tz t)).1 + 6 * 1440 := by
    unfold getWeekDates
    dsimp only
    rw [setDateAdd_eq]
  refine ⟨hstart, by rw [hend, hstart], ?_, ?_, ?_, ?_⟩
  · rw [hstart, localDay_getWeekStart]
    unfold getDay
    split_ifs <;> omega
  · rw [hend, hstart, localDay_shift, localDay_getWeekStart]
    unfold getDay
    split_ifs <;> omega
  · rw [hstart, getDay_getWeekStart]
  · rw [hstart]
    unfold setHoursZero
    rw [localDay_getWeekStart]
    conv_rhs => rw [getWeekStart_eq]

/-- Claim C8 (witness): offset UTC+1, instant 2024-03-14 10:00 UTC. -/
theorem getWeekDates_getWeekIdentifier_spec_witness :
    (getWeekDates 60 (getWeekIdentifier 60 28506840)).1 = getWeekStart 60 28506840 ∧
    (getWeekDates 60 (getWeekIdentifier 60 28506840)).2
      = getWeekStart 60 28506840 + 6 * 1440 ∧
    localDay 60 (getWeekDates 60 (getWeekIdentifier 60 28506840)).1 ≤ localDay 60 28506840 ∧
    localDay 60 28506840 ≤ localDay 60 (getWeekDates 60 (getWeekIdentifier 60 28506840)).2 ∧
    getDay 60 (getWeekDates 60 (getWeekIdentifier 60 28506840)).1 = 1 ∧
    setHoursZero 60 (getWeekDates 60 (getWeekIdentifier 60 28506840)).1
      = (getWeekDates 60 (getWeekIdentifier 60 28506840)).1 :=
  getWeekDates_getWeekIdentifier_spec 60 28506840 (by decide) (by decide)

/-- Claim C2 (the code diverges from the claim): at offset UTC-1
(`tz = -60`), `now` = Monday 2024-03-11 10:00 local time, completions
exactly `{weekIdentifier(W-1), weekIdentifier(W-2)}` with the current
week W absent.  The grace check passes via `W-1`, but `new
Date(checkWeek)` parses the Monday identifier as **UTC** midnight, which
at this offset lies in the *previous* local week, so the walk starts at
`W-2` and the code returns 1 where the claim requires 2. -/
theorem getStreakCount_weekly_utc_parse_bug :
    getDay (-60) 28502580 = 1 ∧
    getWeekIdentifier (-60) 28502580
        ∉ ({getWeekIdentifier (-60) 28492500, getWeekIdentifier (-60) 28482420} :
            Finset JSString) ∧
    getWeekIdentifier (-60) (setDateAdd (-60) 28502580 (-7))
        ∈ ({getWeekIdentifier (-60) 28492500, getWeekIdentifier (-60) 28482420} :
            Finset JSString) ∧
    getStreakCount (-60)
        ({getWeekIdentifier (-60) 28492500, getWeekIdentifier (-60) 28482420} :
            Finset JSString) weeklyStr 28502580 = 1 := by
  refine ⟨by decide, by decide, by decide, by decide⟩

/-- Claim C7 (counterexample to the claim as stated, which quantifies over
every instant): at the instant with local date 0085-03-04 the identifier
is the two-digit-year string, and re-parsing it through the code's local
parse path lands in 1985 (the JS constructor maps years 0–99 to
1900 + year), so reformatting does not yield the identical string. -/
theorem getLocalDateString_roundtrip_counterexample :
    getLocalDateString 0 (jsDateYMD 0
        (parse3 (getLocalDateString 0 (-991323360))).1
        (parse3 (getLocalDateString 0 (-991323360))).2.1
        (parse3 (getLocalDateString 0 (-991323360))).2.2)
      ≠ getLocalDateString 0 (-991323360) := by decide

/-- Claim C8 (counterexample to the claim as stated): for the same
0085-03-04 instant, the `start` returned by
`getWeekDates (getWeekIdentifier d)` falls in 1985 because of the
two-digit-year constructor quirk, so `start ≤ d` fails even at the
calendar-day level. -/
theorem getWeekDates_counterexample :
    localDay 0 (-991323360)
      < localDay 0 (getWeekDates 0 (getWeekIdentifier 0 (-991323360))).1 := by decide

/-- Claim C10 (witness): the termination and bound facts instantiated on a
singleton completion set, with the fuel hypotheses discharged concretely. -/
theorem getStreakCount_terminates_and_le_witness :
    walkDaily 0 ({dailyStr} : Finset JSString) 5 0
      = walkDaily 0 ({dailyStr} : Finset JSString)
        (({dailyStr} : Finset JSString).card + 1) 0 ∧
    walkWeekly 0 ({dailyStr} : Finset JSString) 5 0
      = walkWeekly 0 ({dailyStr} : Finset JSString)
        (({dailyStr} : Finset JSString).card + 1) 0 ∧
    getStreakCount 0 ({dailyStr} : Finset JSString) dailyStr 0
      ≤ ({dailyStr} : Finset JSString).card :=
  ⟨(getStreakCount_terminates_and_le 0 0 {dailyStr} dailyStr).1 0 5 (by decide),
    (getStreakCount_terminates_and_le 0 0 {dailyStr} dailyStr).2.1 0 5 (by decide),
    (getStreakCount_terminates_and_le 0 0 {dailyStr} dailyStr).2.2⟩
